import Mathlib

/-
  Verification of the shape-motif Gibbs sampler (src/gibbs.py) against its
  natural-language specification.

  Modelling conventions:
  * Python floats are modelled as exact numbers: rationals (ℚ) where only
    ring operations and comparisons occur (the sweep / convergence loop),
    and reals (ℝ) where `math.exp` / `np.std` (square roots) appear.
  * Window locations and loop indices are naturals; Python ints that can go
    negative (search bounds derived from seeds) are integers (ℤ).
  * `random.randint(a, b)` is modelled as a fallible draw: it returns a
    value in [a, b] when a ≤ b and signals an error ("empty range",
    Python's ValueError) otherwise.  The pseudo-random stream is an
    explicit oracle parameter.
  * `rv_discrete(...).rvs()` draws one entry of the candidate table; it is
    modelled by an explicit chooser oracle that is handed the candidate
    table and the score table and returns the sampled offset.  Every table
    entry has positive probability in exact arithmetic, so any chooser is a
    realizable random outcome; universally quantified results over choosers
    cover every possible run.
-/

/-- gibbs.py lines 12-20: sum of squared componentwise differences.
Python iterates over `x` and indexes `y`; both are equal-length in every
call site, which `zip` reproduces. -/
def distance (x y : List ℚ) : ℚ :=
  ((x.zip y).map (fun p => (p.1 - p.2) * (p.1 - p.2))).sum

/-- Python slice `s[j : j + w]`. -/
def windowAt (s : List ℚ) (j w : ℕ) : List ℚ :=
  (s.drop j).take w

/-- gibbs.py line 71: the candidate offsets `range(start_locs[i], end_locs[i] + 1)`. -/
def candOffsets (start_locs end_locs : List ℕ) (i : ℕ) : List ℕ :=
  List.range' (start_locs.getD i 0) (end_locs.getD i 0 + 1 - start_locs.getD i 0)

/-- gibbs.py lines 72-79: the (negated) leave-one-out distance score of
candidate offset `j` for sequence `i`, taken against the window locations
currently held in `locs`. -/
def leave_one_out_score (shape_data : List (List ℚ)) (window_size : ℕ)
    (locs : List ℕ) (i j : ℕ) : ℚ :=
  -(((List.range shape_data.length).filter (fun k => k != i)).map
      (fun k => distance (windowAt (shape_data.getD i []) j window_size)
                          (windowAt (shape_data.getD k []) (locs.getD k 0) window_size))).sum

/-- gibbs.py lines 68-79: the score table built for sequence `i` (one raw
score per candidate offset), against the live location state `locs`. -/
def score_table_at (shape_data : List (List ℚ)) (window_size : ℕ)
    (start_locs end_locs : List ℕ) (locs : List ℕ) (i : ℕ) : List ℚ :=
  (candOffsets start_locs end_locs i).map
    (leave_one_out_score shape_data window_size locs i)

/-- gibbs.py lines 60-108, first `i` iterations of the per-sequence
resampling loop: each step rebuilds the candidate/score tables from the
current (partially resampled) locations and overwrites entry `i` with the
chooser's draw. -/
def sweep_upto (shape_data : List (List ℚ)) (window_size : ℕ)
    (start_locs end_locs : List ℕ) (chooser : ℕ → List ℕ → List ℚ → ℕ)
    (locs0 : List ℕ) : ℕ → List ℕ
  | 0 => locs0
  | i + 1 =>
      let cur := sweep_upto shape_data window_size start_locs end_locs chooser locs0 i
      cur.set i (chooser i (candOffsets start_locs end_locs i)
        (score_table_at shape_data window_size start_locs end_locs cur i))

/-- gibbs.py lines 60-108: one full sweep (every sequence resampled once,
in ascending order). -/
def sweep (shape_data : List (List ℚ)) (window_size : ℕ)
    (start_locs end_locs : List ℕ) (chooser : ℕ → List ℕ → List ℚ → ℕ)
    (locs0 : List ℕ) : List ℕ :=
  sweep_upto shape_data window_size start_locs end_locs chooser locs0 shape_data.length

/-- gibbs.py lines 110-115: total pairwise distance over all sequence pairs
at the given window locations. -/
def all_pair_distance (shape_data : List (List ℚ)) (window_size : ℕ)
    (locs : List ℕ) : ℚ :=
  ((List.range shape_data.length).map (fun i =>
    ((List.range' (i + 1) (shape_data.length - (i + 1))).map (fun j =>
      distance (windowAt (shape_data.getD i []) (locs.getD i 0) window_size)
               (windowAt (shape_data.getD j []) (locs.getD j 0) window_size))).sum)).sum

/-- gibbs.py line 32. -/
def epsilon_factor_improvement : ℚ := 1 / 100000

/-- gibbs.py line 29. -/
def max_consecutive_iters_wo_improvement : ℕ := 10

/-- The loop state of gibbs.py lines 57-138: the accepted window locations,
the stored best score (`none` models the initial `float("inf")`), the
non-improvement counter, and whether the loop has broken out. -/
structure GibbsState where
  locs : List ℕ
  best : Option ℚ
  patience : ℕ
  halted : Bool
  deriving DecidableEq

/-- gibbs.py lines 117-136: accept/stop decision after a sweep that
produced locations `new_locs` with total pairwise distance `cur`.
With `best = none` (the initial infinity): `cur != inf` holds and
`cur > inf * (1 - eps) = inf` fails, so control reaches the final
else-branch, exactly as in Python float arithmetic. -/
def gibbs_update (st : GibbsState) (new_locs : List ℕ) (cur : ℚ) : GibbsState :=
  match st.best with
  | none =>
      { locs := new_locs, best := some cur, patience := 0, halted := false }
  | some b =>
      if ¬ (cur ≠ b) then
        { st with locs := new_locs, halted := true }
      else if (¬ (cur > b)) ∧ cur > b * (1 - epsilon_factor_improvement) then
        if st.patience + 1 = max_consecutive_iters_wo_improvement then
          { locs := new_locs, best := some cur, patience := st.patience + 1, halted := true }
        else
          { locs := new_locs, best := some cur, patience := st.patience + 1, halted := false }
      else
        { locs := new_locs, best := some cur, patience := 0, halted := false }

/-- One iteration of the `while True` loop (lines 59-136): run a sweep from
the accepted locations, score it, and apply the accept/stop decision.
A halted state is absorbing. -/
def gibbs_step (shape_data : List (List ℚ)) (window_size : ℕ)
    (start_locs end_locs : List ℕ) (c1 : ℕ → List ℕ → List ℚ → ℕ)
    (st : GibbsState) : GibbsState :=
  if st.halted then st
  else
    let nl := sweep shape_data window_size start_locs end_locs c1 st.locs
    gibbs_update st nl (all_pair_distance shape_data window_size nl)

/-- The loop state after `t` sweeps, starting from the drawn initial
locations `locs0`; `chooser t` is the sampler oracle for sweep `t`. -/
def gibbs_iter (shape_data : List (List ℚ)) (window_size : ℕ)
    (start_locs end_locs : List ℕ) (chooser : ℕ → ℕ → List ℕ → List ℚ → ℕ)
    (locs0 : List ℕ) : ℕ → GibbsState
  | 0 => ⟨locs0, none, 0, false⟩
  | t + 1 => gibbs_step shape_data window_size start_locs end_locs (chooser t)
      (gibbs_iter shape_data window_size start_locs end_locs chooser locs0 t)

/-- The convergence loop terminates on the given instance and sampling
stream iff some iterate has broken out. -/
def gibbs_terminates (shape_data : List (List ℚ)) (window_size : ℕ)
    (start_locs end_locs : List ℕ) (chooser : ℕ → ℕ → List ℕ → List ℚ → ℕ)
    (locs0 : List ℕ) : Prop :=
  ∃ t, (gibbs_iter shape_data window_size start_locs end_locs chooser locs0 t).halted = true

/-- gibbs.py lines 24-49 of `gibbs_motif_extension_finder`: the per-sequence
inclusive search bounds `(start_locs, end_locs)`.  `window_size` is
`motif_len + extent` (line 26); `seq_len` is the first profile's length
(line 25).  The defaults of lines 35-36 stand unless a seed of matching
length overrides them (lines 39-49).  Locations are integers because the
Python arithmetic can go negative. -/
def gibbs_bounds (shape_data : List (List ℚ)) (motif_len : ℕ) (seed_motif : List ℤ)
    (extent : ℕ) : List ℤ × List ℤ :=
  let n_seq := shape_data.length
  let seq_len : ℤ := (shape_data.headI.length : ℤ)
  let window_size : ℤ := (motif_len : ℤ) + (extent : ℤ)
  if seed_motif.length = n_seq then
    ((List.range n_seq).map (fun i =>
        if seed_motif.getD i 0 - window_size < 0 then 0
        else seed_motif.getD i 0 - window_size),
     (List.range n_seq).map (fun i =>
        if seed_motif.getD i 0 + 2 * window_size ≥ seq_len then seq_len - window_size
        else seed_motif.getD i 0 + window_size))
  else
    (List.replicate n_seq 0, List.replicate n_seq (seq_len - window_size))

/-- `random.randint(a, b)`: a uniform draw with `a <= N <= b`; raises
`ValueError` ("empty range") when `a > b`.  `r` is the oracle value of the
pseudo-random stream, folded into the range by a nonnegative remainder. -/
def randint (r a b : ℤ) : Except String ℤ :=
  if a ≤ b then Except.ok (a + r % (b - a + 1)) else Except.error ("empty range")

/-- gibbs.py lines 52-55: the initial window locations, one `randint` per
sequence, taken in ascending sequence order (the first degenerate range
aborts the run, as in Python). -/
def draw_window_locs (rand : ℕ → ℤ) : ℕ → List ℤ → List ℤ → Except String (List ℤ)
  | _, [], _ => Except.ok []
  | _, _ :: _, [] => Except.ok []
  | i, a :: as, b :: bs =>
      match randint (rand i) a b with
      | Except.error e => Except.error e
      | Except.ok v =>
          match draw_window_locs rand (i + 1) as bs with
          | Except.error e => Except.error e
          | Except.ok vs => Except.ok (v :: vs)

/-- `np.max` over a (nonempty) list, as a left fold of binary max. -/
def np_max (l : List ℝ) : ℝ :=
  match l with
  | [] => 0
  | x :: xs => xs.foldl max x

/-- gibbs.py lines 93-97: subtract the table maximum from every raw score
and exponentiate. -/
noncomputable def shift_exp_scores (raw : List ℝ) : List ℝ :=
  raw.map (fun s => Real.exp (s - np_max raw))

/-- gibbs.py lines 99-105: divide every shifted-exponentiated score by
their sum, yielding the probability table handed to `rv_discrete`. -/
noncomputable def normalize_scores (raw : List ℝ) : List ℝ :=
  (shift_exp_scores raw).map (fun x => x / (shift_exp_scores raw).sum)

/-- `np.mean`: sum divided by length. -/
noncomputable def np_mean (l : List ℝ) : ℝ := l.sum / (l.length : ℝ)

/-- `np.std`: square root of the mean squared deviation (population
standard deviation). -/
noncomputable def np_std (l : List ℝ) : ℝ :=
  Real.sqrt (((l.map (fun v => (v - np_mean l) ^ 2)).sum) / (l.length : ℝ))

/-- gibbs.py lines 149-152: the values collected at motif position `p`,
one per sequence (`shape_data[j][motif_window_locs[j] + p]`). -/
def positional_vals (shape_data : List (List ℝ)) (motif_window_locs : List ℕ)
    (p : ℕ) : List ℝ :=
  (List.range shape_data.length).map
    (fun j => (shape_data.getD j []).getD (motif_window_locs.getD j 0 + p) 0)

/-- gibbs.py lines 144-166 (`compute_ranges`): one `(mean - k*std,
mean + k*std)` interval per motif position. -/
noncomputable def compute_ranges (shape_data : List (List ℝ)) (motif_window_locs : List ℕ)
    (window_size : ℕ) (sigma_count : ℝ) : List (ℝ × ℝ) :=
  (List.range window_size).map (fun i =>
    let vals_at_i := positional_vals shape_data motif_window_locs i
    (np_mean vals_at_i - sigma_count * np_std vals_at_i,
     np_mean vals_at_i + sigma_count * np_std vals_at_i))

/-- gibbs.py lines 168-179 (`does_motif_match_window`): every window value
must lie inclusively inside the corresponding interval.  The function is
stated for any linearly ordered value type; the program's floats are ℝ.
The `assert` on equal lengths is modelled by the leading length guard
(all call sites in the repository satisfy it). -/
def does_motif_match_window {α : Type} [LinearOrder α]
    (motif_as_range : List (α × α)) (window : List α) : Bool :=
  decide (window.length = motif_as_range.length) &&
    (window.zip motif_as_range).all
      (fun vp => !(decide (vp.1 < vp.2.1) || decide (vp.2.2 < vp.1)))

/-- gibbs.py lines 181-190 (`list_motif_occurrences`): all offsets
`0 .. seq_len - window_size` whose window matches; `seq_len + 1 - w`
equals Python's `max(0, seq_len - w + 1)` loop count. -/
def list_motif_occurrences {α : Type} [LinearOrder α]
    (cur_shape_data : List α) (motif_as_range : List (α × α)) : List ℕ :=
  (List.range (cur_shape_data.length + 1 - motif_as_range.length)).filter
    (fun i => does_motif_match_window motif_as_range
        ((cur_shape_data.drop i).take motif_as_range.length))

/-- gibbs.py lines 192-213 (`count_occurrences`): fold over the sequences
accumulating the number of sequences with at least one occurrence and the
per-sequence occurrence dictionary (association list in insertion order). -/
def count_occurrences {α : Type} [LinearOrder α]
    (motif_as_range : List (α × α)) (shape_data : List (List α)) :
    ℕ × List (ℕ × List ℕ) :=
  (List.range shape_data.length).foldl
    (fun acc i =>
      let lst := list_motif_occurrences (shape_data.getD i []) motif_as_range
      ((if 0 < lst.length then acc.1 + 1 else acc.1), acc.2 ++ [(i, lst)]))
    (0, [])

/-- gibbs.py lines 290-293: the motif-extension driving loop of `main`.
`finder seed extent` abstracts
`gibbs_motif_extension_finder(chip_shape_data, window_size, seed, extent)`.
The loop appends one result per extent to `extended_motif_window_locs`,
always seeding from `extended_motif_window_locs[0]` (`List.headI`). -/
def extension_drive (finder : List ℕ → ℕ → List ℕ) (initial : List ℕ) :
    List (List ℕ) :=
  (List.range 5).foldl
    (fun acc extent => acc ++ [finder acc.headI extent]) [initial]

/-- Modelled from the spec: the driving routine as §4.5 words it, "each
time feeding the previous result as the next seed" — i.e. seeding from the
last element instead of the first.  Used only to compare against
`extension_drive`, which is translated from the source. -/
def extension_drive_chained (finder : List ℕ → ℕ → List ℕ) (initial : List ℕ) :
    List (List ℕ) :=
  (List.range 5).foldl
    (fun acc extent => acc ++ [finder (acc.getLastD []) extent]) [initial]

/-- gibbs.py line 298: the width offsets of the six reported result sets. -/
def len_offsets : List ℕ := [0, 0, 1, 2, 3, 4]

/-- Instance data for the convergence-loop analysis: two profiles of
length 2. -/
def c4shape : List (List ℚ) := [[0, 0], [0, 1]]

/-- A sampling outcome for `c4shape` with window size 1: sequence 0 always
redraws offset 0, sequence 1 alternates between offsets 1 and 0 with the
parity `p` of the sweep number.  Both offsets are in the candidate table
`[0, 1]` and carry positive probability, so this is a realizable stream. -/
def c4choose_core (p : ℕ) : ℕ → List ℕ → List ℚ → ℕ :=
  fun i _ _ => if i = 1 then (if p = 0 then 1 else 0) else 0

/-- The per-sweep chooser: sweep `t` uses parity `t % 2`. -/
def c4chooser (t : ℕ) : ℕ → List ℕ → List ℚ → ℕ := c4choose_core (t % 2)

/-- The state the alternating run occupies after every odd sweep. -/
def c4state_odd : GibbsState := ⟨[0, 1], some 1, 0, false⟩

/-- The state the alternating run occupies after every even positive
sweep. -/
def c4state_even : GibbsState := ⟨[0, 0], some 0, 0, false⟩

/-! Helper lemmas -/

/-- Reading a mapped range at an in-bounds index. -/
theorem getD_map_range {α : Type} (n k : ℕ) (f : ℕ → α) (d : α) (h : k < n) :
    ((List.range n).map f).getD k d = f k := by
  simp [List.getD_eq_getElem?_getD, List.getElem?_map, List.getElem?_range h]

/-- A sweep never changes the number of sequences. -/
theorem sweep_upto_length (shape_data : List (List ℚ)) (window_size : ℕ)
    (start_locs end_locs : List ℕ) (chooser : ℕ → List ℕ → List ℚ → ℕ)
    (locs0 : List ℕ) (t : ℕ) :
    (sweep_upto shape_data window_size start_locs end_locs chooser locs0 t).length
      = locs0.length := by
  induction t with
  | zero => rfl
  | succ t ih => rw [sweep_upto]; simpa using ih

/-- Entries not yet reached by the sweep still hold their pre-sweep values. -/
theorem sweep_upto_getD_of_le (shape_data : List (List ℚ)) (window_size : ℕ)
    (start_locs end_locs : List ℕ) (chooser : ℕ → List ℕ → List ℚ → ℕ)
    (locs0 : List ℕ) (t k : ℕ) (h : t ≤ k) :
    (sweep_upto shape_data window_size start_locs end_locs chooser locs0 t).getD k 0
      = locs0.getD k 0 := by
  induction t with
  | zero => rfl
  | succ t ih =>
      rw [sweep_upto]
      have hne : t ≠ k := by omega
      rw [List.getD_eq_getElem?_getD, List.getElem?_set_ne hne,
        ← List.getD_eq_getElem?_getD]
      exact ih (by omega)

/-- Entries already resampled are never touched again within the same sweep. -/
theorem sweep_upto_getD_stable (shape_data : List (List ℚ)) (window_size : ℕ)
    (start_locs end_locs : List ℕ) (chooser : ℕ → List ℕ → List ℚ → ℕ)
    (locs0 : List ℕ) (t s k : ℕ) (hk : k < t) (hts : t ≤ s) :
    (sweep_upto shape_data window_size start_locs end_locs chooser locs0 s).getD k 0
      = (sweep_upto shape_data window_size start_locs end_locs chooser locs0 t).getD k 0 := by
  induction s with
  | zero => omega
  | succ s ih =>
      rcases Nat.lt_or_ge t (s + 1) with hlt | hge
      · rw [sweep_upto]
        have hne : s ≠ k := by omega
        rw [List.getD_eq_getElem?_getD, List.getElem?_set_ne hne,
          ← List.getD_eq_getElem?_getD]
        exact ih (by omega)
      · have heq : t = s + 1 := by omega
        rw [heq]

/-- The leave-one-out score only reads the other sequences' locations. -/
theorem leave_one_out_score_congr (shape_data : List (List ℚ)) (window_size : ℕ)
    (locsA locsB : List ℕ) (i j : ℕ)
    (h : ∀ k, k < shape_data.length → k ≠ i → locsA.getD k 0 = locsB.getD k 0) :
    leave_one_out_score shape_data window_size locsA i j
      = leave_one_out_score shape_data window_size locsB i j := by
  unfold leave_one_out_score
  congr 1
  congr 1
  apply List.map_congr_left
  intro k hk
  rw [List.mem_filter] at hk
  have hk1 : k < shape_data.length := List.mem_range.mp hk.1
  have hk2 : k ≠ i := by simpa using hk.2
  rw [h k hk1 hk2]

/-- Case analysis of the accept/stop decision, as needed for the patience
bound: the sweep either halts, resets the counter, or increments a counter
that has not yet reached the bound. -/
theorem gibbs_update_cases (st : GibbsState) (nl : List ℕ) (cur : ℚ) :
    (gibbs_update st nl cur).halted = true ∨
    (gibbs_update st nl cur).patience = 0 ∨
    ((gibbs_update st nl cur).patience = st.patience + 1 ∧
      st.patience + 1 ≠ max_consecutive_iters_wo_improvement) := by
  unfold gibbs_update
  split
  · right; left; rfl
  · split
    · left; rfl
    · split
      · split
        · left; rfl
        · right; right; exact ⟨rfl, by assumption⟩
      · right; left; rfl

/-- On the alternating stream, an odd-parity sweep carries the loop from
the odd state to the even state: the score drops from 1 to 0, a meaningful
improvement, so the counter resets and the loop keeps running. -/
theorem c4_step_odd (t : ℕ) (h : t % 2 = 1) :
    gibbs_step c4shape 1 [0, 0] [1, 1] (c4chooser t) c4state_odd = c4state_even := by
  have hc : c4chooser t = c4choose_core 1 := by rw [c4chooser, h]
  have h1 : sweep c4shape 1 [0, 0] [1, 1] (c4choose_core 1) [0, 1] = [0, 0] := by
    norm_num [sweep, c4shape, sweep_upto, c4choose_core, List.set]
  have h2 : all_pair_distance c4shape 1 [0, 0] = 0 := by
    norm_num [all_pair_distance, c4shape, distance, windowAt, List.range_succ, List.range']
  rw [hc]
  simp [gibbs_step, c4state_odd, h1, h2, gibbs_update, c4state_even,
    epsilon_factor_improvement]
  intro hx
  norm_num at hx

/-- On the alternating stream, an even-parity sweep carries the loop from
the even state back to the odd state: the score climbs from 0 to 1, a
worsening, so the counter resets and the loop keeps running. -/
theorem c4_step_even (t : ℕ) (h : t % 2 = 0) :
    gibbs_step c4shape 1 [0, 0] [1, 1] (c4chooser t) c4state_even = c4state_odd := by
  have hc : c4chooser t = c4choose_core 0 := by rw [c4chooser, h]
  have h1 : sweep c4shape 1 [0, 0] [1, 1] (c4choose_core 0) [0, 0] = [0, 1] := by
    norm_num [sweep, c4shape, sweep_upto, c4choose_core, List.set]
  have h2 : all_pair_distance c4shape 1 [0, 1] = 1 := by
    norm_num [all_pair_distance, c4shape, distance, windowAt, List.range_succ, List.range']
  rw [hc]
  simp [gibbs_step, c4state_even, h1, h2, gibbs_update, c4state_odd,
    epsilon_factor_improvement]

/-- The alternating run cycles forever between the odd and even states. -/
theorem c4_cycle (k : ℕ) :
    gibbs_iter c4shape 1 [0, 0] [1, 1] c4chooser [0, 0] (2 * k + 1) = c4state_odd ∧
    gibbs_iter c4shape 1 [0, 0] [1, 1] c4chooser [0, 0] (2 * k + 2) = c4state_even := by
  induction k with
  | zero =>
      constructor
      · have h1 : sweep c4shape 1 [0, 0] [1, 1] (c4chooser 0) [0, 0] = [0, 1] := by
          norm_num [sweep, c4shape, sweep_upto, c4chooser, c4choose_core, List.set]
        have h2 : all_pair_distance c4shape 1 [0, 1] = 1 := by
          norm_num [all_pair_distance, c4shape, distance, windowAt, List.range_succ,
            List.range']
        simp [gibbs_iter, gibbs_step, h1, h2, gibbs_update, c4state_odd]
      · have hbase : gibbs_iter c4shape 1 [0, 0] [1, 1] c4chooser [0, 0] 1 = c4state_odd := by
          have h1 : sweep c4shape 1 [0, 0] [1, 1] (c4chooser 0) [0, 0] = [0, 1] := by
            norm_num [sweep, c4shape, sweep_upto, c4chooser, c4choose_core, List.set]
          have h2 : all_pair_distance c4shape 1 [0, 1] = 1 := by
            norm_num [all_pair_distance, c4shape, distance, windowAt, List.range_succ,
              List.range']
          simp [gibbs_iter, gibbs_step, h1, h2, gibbs_update, c4state_odd]
        show gibbs_step c4shape 1 [0, 0] [1, 1] (c4chooser 1)
            (gibbs_iter c4shape 1 [0, 0] [1, 1] c4chooser [0, 0] 1) = c4state_even
        rw [hbase, c4_step_odd 1 rfl]
  | succ k ih =>
      have e1 : 2 * (k + 1) + 1 = (2 * k + 2) + 1 := by omega
      have e2 : 2 * (k + 1) + 2 = ((2 * k + 2) + 1) + 1 := by omega
      rw [e1, e2]
      have s1 : gibbs_iter c4shape 1 [0, 0] [1, 1] c4chooser [0, 0] ((2 * k + 2) + 1)
          = c4state_odd := by
        show gibbs_step c4shape 1 [0, 0] [1, 1] (c4chooser (2 * k + 2))
            (gibbs_iter c4shape 1 [0, 0] [1, 1] c4chooser [0, 0] (2 * k + 2)) = c4state_odd
        rw [ih.2, c4_step_even (2 * k + 2) (by omega)]
      refine ⟨s1, ?_⟩
      show gibbs_step c4shape 1 [0, 0] [1, 1] (c4chooser (2 * k + 3))
          (gibbs_iter c4shape 1 [0, 0] [1, 1] c4chooser [0, 0] (2 * k + 3)) = c4state_even
      have e3 : (2 * k + 2) + 1 = 2 * k + 3 := by omega
      rw [e3] at s1
      rw [s1, c4_step_odd (2 * k + 3) (by omega)]

/-- The accumulator of a left max fold never decreases. -/
theorem le_foldl_max (l : List ℝ) (a : ℝ) : a ≤ l.foldl max a := by
  induction l generalizing a with
  | nil => simp
  | cons x xs ih => exact le_trans (le_max_left a x) (ih (max a x))

/-- Every list element is bounded by the max fold. -/
theorem mem_le_foldl_max (l : List ℝ) (a x : ℝ) (hx : x ∈ l) : x ≤ l.foldl max a := by
  induction l generalizing a with
  | nil => simp at hx
  | cons y ys ih =>
      rcases List.mem_cons.mp hx with h | h
      · subst h
        exact le_trans (le_max_right a x) (le_foldl_max ys (max a x))
      · exact ih (max a y) h

/-- The max fold either keeps its seed or lands on a list element. -/
theorem foldl_max_mem (l : List ℝ) (a : ℝ) : l.foldl max a = a ∨ l.foldl max a ∈ l := by
  induction l generalizing a with
  | nil => left; rfl
  | cons x xs ih =>
      rcases ih (max a x) with h | h
      · rcases le_total a x with hax | hax
        · right
          rw [List.foldl_cons, h, max_eq_right hax]
          exact List.mem_cons_self x xs
        · left
          rw [List.foldl_cons, h, max_eq_left hax]
      · right
        exact List.mem_cons_of_mem x h

/-- `np.max` of a nonempty list is attained by one of its entries. -/
theorem np_max_mem (l : List ℝ) (h : l ≠ []) : np_max l ∈ l := by
  cases l with
  | nil => exact absurd rfl h
  | cons x xs =>
      rw [np_max]
      rcases foldl_max_mem xs x with h1 | h1
      · rw [h1]; exact List.mem_cons_self x xs
      · exact List.mem_cons_of_mem x h1

/-- `np.max` dominates every entry. -/
theorem le_np_max (l : List ℝ) (x : ℝ) (hx : x ∈ l) : x ≤ np_max l := by
  cases l with
  | nil => simp at hx
  | cons y ys =>
      rw [np_max]
      rcases List.mem_cons.mp hx with h | h
      · subst h; exact le_foldl_max ys x
      · exact mem_le_foldl_max ys y x h

/-- Dividing every summand divides the sum. -/
theorem sum_map_div (l : List ℝ) (c : ℝ) : (l.map (fun x => x / c)).sum = l.sum / c := by
  induction l with
  | nil => simp
  | cons x xs ih => simp [ih, add_div]

/-- Shifting every exponent by a constant factors out of the sum. -/
theorem sum_map_exp_sub (l : List ℝ) (m : ℝ) :
    (l.map (fun s => Real.exp (s - m))).sum = (l.map Real.exp).sum * Real.exp (-m) := by
  induction l with
  | nil => simp
  | cons x xs ih =>
      simp only [List.map_cons, List.sum_cons, ih, add_mul]
      rw [Real.exp_sub, Real.exp_neg, div_eq_mul_inv]

/-- The shifted-exponentiated table of a nonempty score table sums to at
least 1: the maximal raw score contributes `exp 0 = 1` and every other
contribution is nonnegative.  This is the divisor of the normalization, so
no division by zero can occur. -/
theorem shift_exp_sum_ge_one (raw : List ℝ) (h : raw ≠ []) :
    1 ≤ (shift_exp_scores raw).sum := by
  have hmem : Real.exp (np_max raw - np_max raw) ∈ shift_exp_scores raw :=
    List.mem_map_of_mem _ (np_max_mem raw h)
  have h1 : Real.exp (np_max raw - np_max raw) = 1 := by simp
  have hnn : ∀ x ∈ shift_exp_scores raw, 0 ≤ x := by
    intro x hx
    rw [shift_exp_scores] at hx
    rcases List.mem_map.mp hx with ⟨s, _, rfl⟩
    exact le_of_lt (Real.exp_pos _)
  calc (1:ℝ) = Real.exp (np_max raw - np_max raw) := h1.symm
    _ ≤ (shift_exp_scores raw).sum := List.single_le_sum hnn _ hmem

/-- The positional sample has one value per sequence. -/
theorem positional_vals_length (shape_data : List (List ℝ)) (locs : List ℕ) (p : ℕ) :
    (positional_vals shape_data locs p).length = shape_data.length := by
  simp [positional_vals]

/-- The window-matching test, characterized pointwise: the lengths agree
and every window value lies inclusively inside its interval. -/
theorem does_motif_match_window_iff {α : Type} [LinearOrder α]
    (motif_as_range : List (α × α)) (window : List α) (d : α) (dr : α × α) :
    does_motif_match_window motif_as_range window = true ↔
      (window.length = motif_as_range.length ∧
        ∀ idx, idx < window.length →
          (motif_as_range.getD idx dr).1 ≤ window.getD idx d ∧
          window.getD idx d ≤ (motif_as_range.getD idx dr).2) := by
  rw [does_motif_match_window, Bool.and_eq_true, decide_eq_true_iff, List.all_eq_true]
  constructor
  · rintro ⟨hlen, hall⟩
    refine ⟨hlen, ?_⟩
    intro idx hidx
    have hidx2 : idx < motif_as_range.length := hlen ▸ hidx
    have hmem : (window[idx], motif_as_range[idx]) ∈ window.zip motif_as_range := by
      have hz : idx < (window.zip motif_as_range).length := by
        rw [List.length_zip]; omega
      have hel := List.getElem_mem hz
      rwa [List.getElem_zip] at hel
    have hb := hall _ hmem
    simp only [Bool.not_eq_true', Bool.or_eq_false_iff, decide_eq_false_iff_not,
      not_lt] at hb
    rw [List.getD_eq_getElem window d hidx, List.getD_eq_getElem motif_as_range dr hidx2]
    exact ⟨hb.1, hb.2⟩
  · rintro ⟨hlen, hall⟩
    refine ⟨hlen, ?_⟩
    intro vp hvp
    rcases List.mem_iff_getElem.mp hvp with ⟨idx, hidx, heq⟩
    have hidx1 : idx < window.length := by
      rw [List.length_zip] at hidx; omega
    have hidx2 : idx < motif_as_range.length := hlen ▸ hidx1
    rw [List.getElem_zip] at heq
    subst heq
    have hb := hall idx hidx1
    rw [List.getD_eq_getElem window d hidx1,
      List.getD_eq_getElem motif_as_range dr hidx2] at hb
    simp only [Bool.not_eq_true', Bool.or_eq_false_iff, decide_eq_false_iff_not, not_lt]
    exact ⟨hb.1, hb.2⟩

/-- The interval emitted at an in-bounds motif position. -/
theorem compute_ranges_getD (shape_data : List (List ℝ)) (locs : List ℕ) (w : ℕ)
    (k : ℝ) (p : ℕ) (hp : p < w) :
    (compute_ranges shape_data locs w k).getD p (0, 0)
      = (np_mean (positional_vals shape_data locs p)
           - k * np_std (positional_vals shape_data locs p),
         np_mean (positional_vals shape_data locs p)
           + k * np_std (positional_vals shape_data locs p)) := by
  rw [compute_ranges, getD_map_range _ _ _ _ hp]

/-- No sample value deviates from the sample mean by more than `sqrt n`
population standard deviations. -/
theorem member_dev_le_sqrt_card_mul_std (l : List ℝ) (x : ℝ) (hx : x ∈ l) :
    |x - np_mean l| ≤ Real.sqrt (l.length : ℝ) * np_std l := by
  have hlen : 0 < l.length := List.length_pos.mpr (List.ne_nil_of_mem hx)
  have hn : ((l.length : ℝ)) ≠ 0 := by positivity
  have hsq : (x - np_mean l) ^ 2 ≤ ((l.map (fun v => (v - np_mean l) ^ 2)).sum) := by
    apply List.single_le_sum
    · intro y hy
      rcases List.mem_map.mp hy with ⟨v, _, rfl⟩
      exact sq_nonneg _
    · exact List.mem_map_of_mem _ hx
  have habs : |x - np_mean l| = Real.sqrt ((x - np_mean l) ^ 2) :=
    (Real.sqrt_sq_eq_abs _).symm
  rw [habs, np_std, ← Real.sqrt_mul (Nat.cast_nonneg _)]
  apply Real.sqrt_le_sqrt
  rw [mul_div_cancel₀ _ hn]
  exact hsq

/-- The occurrence offsets of one profile are listed in strictly increasing
order (they are a filter of an increasing range). -/
theorem list_motif_occurrences_pairwise {α : Type} [LinearOrder α]
    (cur_shape_data : List α) (motif_as_range : List (α × α)) :
    List.Pairwise (· < ·) (list_motif_occurrences cur_shape_data motif_as_range) :=
  (List.pairwise_lt_range _).sublist (List.filter_sublist _)

/-- Every reported occurrence leaves the matched window inside the profile. -/
theorem list_motif_occurrences_bound {α : Type} [LinearOrder α]
    (cur_shape_data : List α) (motif_as_range : List (α × α)) (o : ℕ)
    (ho : o ∈ list_motif_occurrences cur_shape_data motif_as_range) :
    o + motif_as_range.length ≤ cur_shape_data.length := by
  have hmem := List.mem_range.mp (List.mem_filter.mp ho).1
  omega

/-- Closed form of the `count_occurrences` fold. -/
theorem count_occurrences_foldl {α : Type} [LinearOrder α]
    (motif_as_range : List (α × α)) (shape_data : List (List α))
    (l : List ℕ) (c : ℕ) (d : List (ℕ × List ℕ)) :
    l.foldl (fun acc i =>
        let lst := list_motif_occurrences (shape_data.getD i []) motif_as_range
        ((if 0 < lst.length then acc.1 + 1 else acc.1), acc.2 ++ [(i, lst)])) (c, d)
      = (c + (l.filter (fun i =>
            decide (list_motif_occurrences (shape_data.getD i []) motif_as_range ≠ []))).length,
         d ++ l.map (fun i => (i, list_motif_occurrences (shape_data.getD i []) motif_as_range))) := by
  induction l generalizing c d with
  | nil => simp
  | cons x xs ih =>
      rw [List.foldl_cons, ih]
      simp only [List.filter_cons, List.map_cons]
      by_cases hx : list_motif_occurrences (shape_data.getD x []) motif_as_range = []
      · rw [if_neg (by rw [hx]; simp),
          if_neg (by rw [decide_eq_false (by rw [hx]; simp :
            ¬ list_motif_occurrences (shape_data.getD x []) motif_as_range ≠ [])]; simp)]
        simp
      · rw [if_pos (List.length_pos.mpr hx), if_pos (decide_eq_true hx)]
        simp only [List.length_cons]
        rw [Prod.mk.injEq]
        constructor
        · omega
        · simp

/-- Clamping a difference at zero is a max. -/
theorem ite_neg_clamp (a : ℤ) : (if a < 0 then 0 else a) = max 0 a := by
  split <;> omega

/-- The upper-bound branch of the seeded search bounds is a min. -/
theorem ite_high_clamp (L w s : ℤ) :
    (if s + 2 * w ≥ L then L - w else s + w) = min (L - w) (s + w) := by
  split <;> omega

/-! Claim theorems -/

/-- Claim C1 (counterexample).  The claim says each MotifExtender
invocation takes the previous invocation's result as its seed.  The code
(gibbs.py line 292) passes `extended_motif_window_locs[0]` — the original
unseeded run's result — to every invocation.  With the finder
`fun s e => s ++ [e]` the two disciplines produce different result lists,
so the claim as stated is false of the code. -/
theorem C1_seed_is_always_original_counterexample :
    extension_drive (fun s e => s ++ [e]) []
      ≠ extension_drive_chained (fun s e => s ++ [e]) [] := by decide

/-- Claim C1 (amended).  The driving routine invokes the finder for
extents 0, 1, 2, 3, 4 in that order, every invocation seeded with the
ORIGINAL unseeded run's result (the first element of the accumulated
list), and together with that original run it yields exactly 6 result
sets; with base width `w` their widths are `w + o` for the offsets
`[0, 0, 1, 2, 3, 4]`, i.e. `w, w, w+1, w+2, w+3, w+4`. -/
theorem C1_extension_driver_amended (finder : List ℕ → ℕ → List ℕ)
    (initial : List ℕ) (w : ℕ) :
    extension_drive finder initial
      = [initial, finder initial 0, finder initial 1, finder initial 2,
         finder initial 3, finder initial 4]
  ∧ len_offsets.map (fun o => w + o) = [w, w, w + 1, w + 2, w + 3, w + 4] :=
  ⟨rfl, rfl⟩

/-- Claim C2.  For every nonempty table of raw scores, the stabilized
normalization (subtract the table max, exponentiate, divide by the sum)
has a divisor of at least 1 (so no division by zero), yields entries that
are all nonnegative (hence finite, in this exact-real model) and sum to
exactly 1, and equals the softmax of the raw scores. -/
theorem C2_resampler_normalization (raw : List ℝ) (h : raw ≠ []) :
    1 ≤ (shift_exp_scores raw).sum
  ∧ (∀ p ∈ normalize_scores raw, 0 ≤ p)
  ∧ (normalize_scores raw).sum = 1
  ∧ normalize_scores raw
      = raw.map (fun s => Real.exp s / ((raw.map Real.exp).sum)) := by
  have hsum := shift_exp_sum_ge_one raw h
  have hpos : (0:ℝ) < (shift_exp_scores raw).sum := lt_of_lt_of_le one_pos hsum
  refine ⟨hsum, ?_, ?_, ?_⟩
  · intro p hp
    rcases List.mem_map.mp hp with ⟨x, hx, rfl⟩
    have hxnn : 0 ≤ x := by
      rw [shift_exp_scores] at hx
      rcases List.mem_map.mp hx with ⟨s, _, rfl⟩
      exact le_of_lt (Real.exp_pos _)
    exact div_nonneg hxnn (le_of_lt hpos)
  · rw [normalize_scores, sum_map_div, div_self (ne_of_gt hpos)]
  · rw [normalize_scores, shift_exp_scores, List.map_map]
    have hm : (raw.map Real.exp).sum
        = (shift_exp_scores raw).sum * Real.exp (np_max raw) := by
      rw [shift_exp_scores, sum_map_exp_sub raw (np_max raw)]
      rw [mul_assoc, ← Real.exp_add]
      simp
    apply List.map_congr_left
    intro s _
    simp only [Function.comp]
    rw [hm, Real.exp_sub, div_div, mul_comm (Real.exp (np_max raw))]
    rw [shift_exp_scores]

/-- Claim C2 (witness): the guarantees instantiated at the one-entry table
`[0]`. -/
theorem C2_resampler_normalization_witness :
    ([(0:ℝ)] ≠ [])
  ∧ (1 ≤ (shift_exp_scores [(0:ℝ)]).sum
    ∧ (∀ p ∈ normalize_scores [(0:ℝ)], 0 ≤ p)
    ∧ (normalize_scores [(0:ℝ)]).sum = 1
    ∧ normalize_scores [(0:ℝ)]
        = [(0:ℝ)].map (fun s => Real.exp s / (([(0:ℝ)].map Real.exp).sum))) :=
  ⟨by simp, C2_resampler_normalization [(0:ℝ)] (by simp)⟩

/-- Claim C3.  With a finite stored best score `b`, the accept/stop
decision after a sweep follows exactly the claimed priority order:
if `cur = b` the sweep's locations are accepted and the loop stops
(convergence); else if `cur ≤ b` and `cur > b * (1 - 1e-5)` the new set
and score are accepted, the non-improvement counter is incremented, and
the loop stops exactly when the counter reaches 10; otherwise (meaningful
improvement or any worsening) the new set and score are accepted, the
counter resets to 0, and the loop continues. -/
theorem C3_convergence_decision (st : GibbsState) (b : ℚ) (hb : st.best = some b)
    (new_locs : List ℕ) (cur : ℚ) :
    (cur = b →
      gibbs_update st new_locs cur = { st with locs := new_locs, halted := true })
  ∧ (cur ≠ b → cur ≤ b → b * (1 - epsilon_factor_improvement) < cur →
      gibbs_update st new_locs cur =
        { locs := new_locs, best := some cur, patience := st.patience + 1,
          halted := decide (st.patience + 1 = max_consecutive_iters_wo_improvement) })
  ∧ (cur ≠ b → ¬ (cur ≤ b ∧ b * (1 - epsilon_factor_improvement) < cur) →
      gibbs_update st new_locs cur =
        { locs := new_locs, best := some cur, patience := 0, halted := false }) := by
  obtain ⟨locs, best, pat, halted⟩ := st
  simp only at hb
  subst hb
  refine ⟨?_, ?_, ?_⟩
  · intro h
    subst h
    simp [gibbs_update]
  · intro h1 h2 h3
    rw [gibbs_update]
    simp only
    rw [if_neg (by simpa using h1)]
    rw [if_pos ⟨by simpa using h2, h3⟩]
    by_cases hp : pat + 1 = max_consecutive_iters_wo_improvement
    · rw [if_pos hp]
      simp [hp]
    · rw [if_neg hp]
      simp [hp]
  · intro h1 h2
    rw [gibbs_update]
    simp only
    rw [if_neg (by simpa using h1)]
    rw [if_neg (by push_neg at h2 ⊢; intro hle; exact h2 (by simpa using hle))]

/-- Claim C3 (witness): the equal-score branch at a concrete state — score
5 equals the stored best 5, so the locations are accepted and the loop
halts. -/
theorem C3_convergence_decision_witness :
    gibbs_update ⟨[0], some 5, 0, false⟩ [1] 5 = ⟨[1], some 5, 0, true⟩ := by
  have h := (C3_convergence_decision ⟨[0], some 5, 0, false⟩ 5 rfl [1] 5).1 rfl
  simpa using h

/-- Claim C4 (counterexample).  The loop need not terminate: on the
two-sequence instance `c4shape` with window size 1, the realizable
sampling stream `c4chooser` alternates the second sequence's offset
between 1 and 0, so the total pairwise distance alternates between 1 and
0.  Every sweep is then either a meaningful improvement or a worsening,
the counter resets each time, and no iterate ever halts — refuting "it
cannot loop indefinitely under the stated transition rules". -/
theorem C4_nontermination_counterexample :
    ¬ gibbs_terminates c4shape 1 [0, 0] [1, 1] c4chooser [0, 0] := by
  rintro ⟨t, ht⟩
  rcases Nat.even_or_odd t with ⟨k, hk⟩ | ⟨k, hk⟩
  · cases k with
    | zero =>
        subst hk
        simp [gibbs_iter] at ht
    | succ k =>
        have he : t = 2 * k + 2 := by omega
        rw [he, (c4_cycle k).2] at ht
        simp [c4state_even] at ht
  · have he : t = 2 * k + 1 := by omega
    rw [he, (c4_cycle k).1] at ht
    simp [c4state_odd] at ht

/-- Claim C4 (amended).  The patience mechanism itself is sound: as long
as the loop is still running the non-improvement counter is at most 9, so
ten consecutive negligible-improvement sweeps force a halt; this holds for
every profile set, bounds, sampling stream and start.  Termination itself,
however, is not guaranteed (see the counterexample): meaningful
improvements and worsenings reset the counter, so an alternating score
sequence keeps the loop running forever. -/
theorem C4_patience_bound (shape_data : List (List ℚ)) (window_size : ℕ)
    (start_locs end_locs : List ℕ) (chooser : ℕ → ℕ → List ℕ → List ℚ → ℕ)
    (locs0 : List ℕ) (t : ℕ)
    (h : (gibbs_iter shape_data window_size start_locs end_locs chooser locs0 t).halted
      = false) :
    (gibbs_iter shape_data window_size start_locs end_locs chooser locs0 t).patience ≤ 9 := by
  induction t with
  | zero => simp [gibbs_iter]
  | succ t ih =>
      rw [gibbs_iter] at h ⊢
      set prev := gibbs_iter shape_data window_size start_locs end_locs chooser locs0 t
        with hprev
      by_cases hh : prev.halted = true
      · rw [gibbs_step, if_pos hh] at h
        exact absurd h (by simp [hh])
      · have hp : prev.patience ≤ 9 := ih (by simpa using hh)
        rw [gibbs_step, if_neg hh] at h ⊢
        rcases gibbs_update_cases prev
            (sweep shape_data window_size start_locs end_locs (chooser t) prev.locs)
            (all_pair_distance shape_data window_size
              (sweep shape_data window_size start_locs end_locs (chooser t) prev.locs)) with
          hc | hc | ⟨hc1, hc2⟩
        · rw [hc] at h
          exact absurd h (by simp)
        · rw [hc]; omega
        · rw [hc1]
          rw [max_consecutive_iters_wo_improvement] at hc2
          omega

/-- Claim C4 (witness): the bound instantiated at a concrete running
state (the start of a one-sequence run). -/
theorem C4_patience_bound_witness :
    (gibbs_iter [[(0:ℚ)]] 1 [0] [0] (fun _ _ _ _ => 0) [0] 0).halted = false ∧
    (gibbs_iter [[(0:ℚ)]] 1 [0] [0] (fun _ _ _ _ => 0) [0] 0).patience ≤ 9 :=
  ⟨rfl, C4_patience_bound [[(0:ℚ)]] 1 [0] [0] (fun _ _ _ _ => 0) [0] 0 rfl⟩

/-- Claim C5.  Within one sweep, when sequence `i` is resampled, the score
table the code builds for it scores every candidate offset `j` of the
candidate range by the negated leave-one-out distance sum taken against
the LIVE state: every sequence `k < i` (already resampled this sweep)
contributes its new, post-sweep location, and every sequence `k > i` (not
yet resampled) contributes its location from before the sweep started. -/
theorem C5_live_state_scoring (shape_data : List (List ℚ)) (window_size : ℕ)
    (start_locs end_locs : List ℕ) (chooser : ℕ → List ℕ → List ℚ → ℕ)
    (locs0 : List ℕ) (i : ℕ) (hi : i < shape_data.length) :
    score_table_at shape_data window_size start_locs end_locs
        (sweep_upto shape_data window_size start_locs end_locs chooser locs0 i) i
      = (candOffsets start_locs end_locs i).map (fun j =>
          leave_one_out_score shape_data window_size
            ((List.range shape_data.length).map (fun k =>
              if k < i then
                (sweep shape_data window_size start_locs end_locs chooser locs0).getD k 0
              else locs0.getD k 0)) i j) := by
  unfold score_table_at
  apply List.map_congr_left
  intro j _
  apply leave_one_out_score_congr
  intro k hk hki
  rw [getD_map_range _ _ _ _ hk]
  by_cases hlt : k < i
  · rw [if_pos hlt]
    unfold sweep
    rw [sweep_upto_getD_stable _ _ _ _ _ _ i shape_data.length k hlt (le_of_lt hi)]
  · rw [if_neg hlt]
    exact sweep_upto_getD_of_le _ _ _ _ _ _ i k (by omega)

/-- Claim C5 (witness): the identity instantiated on a concrete
two-sequence instance at the second resampling step. -/
theorem C5_live_state_scoring_witness :
    1 < ([[(0:ℚ), 1], [1, 0]] : List (List ℚ)).length ∧
    score_table_at [[(0:ℚ), 1], [1, 0]] 1 [0, 0] [1, 1]
        (sweep_upto [[(0:ℚ), 1], [1, 0]] 1 [0, 0] [1, 1] (fun _ _ _ => 1) [0, 0] 1) 1
      = (candOffsets [0, 0] [1, 1] 1).map (fun j =>
          leave_one_out_score [[(0:ℚ), 1], [1, 0]] 1
            ((List.range ([[(0:ℚ), 1], [1, 0]] : List (List ℚ)).length).map (fun k =>
              if k < 1 then
                (sweep [[(0:ℚ), 1], [1, 0]] 1 [0, 0] [1, 1] (fun _ _ _ => 1) [0, 0]).getD k 0
              else [0, 0].getD k 0)) 1 j) :=
  ⟨by norm_num,
   C5_live_state_scoring [[(0:ℚ), 1], [1, 0]] 1 [0, 0] [1, 1] (fun _ _ _ => 1) [0, 0] 1
     (by norm_num)⟩

/-- Claim C6.  With a seed of length equal to the number of sequences, the
derived per-sequence bounds are exactly `start = max 0 (seed - ws)` and
`end = min (seqLen - ws) (seed + ws)` with `ws = motif_len + extent` the
window size of the subsequent run; without a matching-length seed they are
`0` and `seqLen - ws` for every sequence. -/
theorem C6_seeded_search_bounds (shape_data : List (List ℚ)) (motif_len : ℕ)
    (seed_motif : List ℤ) (extent : ℕ) :
    gibbs_bounds shape_data motif_len seed_motif extent
      = if seed_motif.length = shape_data.length then
          ((List.range shape_data.length).map (fun i =>
              max 0 (seed_motif.getD i 0 - ((motif_len : ℤ) + (extent : ℤ)))),
           (List.range shape_data.length).map (fun i =>
              min ((shape_data.headI.length : ℤ) - ((motif_len : ℤ) + (extent : ℤ)))
                  (seed_motif.getD i 0 + ((motif_len : ℤ) + (extent : ℤ)))))
        else
          (List.replicate shape_data.length 0,
           List.replicate shape_data.length
             ((shape_data.headI.length : ℤ) - ((motif_len : ℤ) + (extent : ℤ)))) := by
  unfold gibbs_bounds
  split
  · rename_i hlen
    rw [if_pos hlen]
    rw [Prod.mk.injEq]
    constructor
    · apply List.map_congr_left
      intro i _
      exact ite_neg_clamp _
    · apply List.map_congr_left
      intro i _
      exact ite_high_clamp _ _ _
  · rename_i hlen
    rw [if_neg hlen]

/-- Claim C7 (counterexample).  Self-consistency fails for a small sigma
multiplier: with the two profiles `[1]` and `[0]` converged at offset 0,
width 1 and multiplier 1/2, the interval is `(1/4, 3/4)`, so scanning the
first profile with its own converged model reports NO occurrence at the
converged offset 0. -/
theorem C7_self_match_counterexample :
    (0:ℕ) ∉ list_motif_occurrences ([1] : List ℝ)
      (compute_ranges [[1], [0]] [0, 0] 1 (1/2)) := by
  intro hmem
  rw [list_motif_occurrences] at hmem
  have hp := (List.mem_filter.mp hmem).2
  rw [does_motif_match_window_iff _ _ 0 (0, 0)] at hp
  have hrlen : (compute_ranges [[(1:ℝ)], [0]] [0, 0] 1 (1/2)).length = 1 := by
    simp [compute_ranges]
  have hv : positional_vals [[(1:ℝ)], [0]] [0, 0] 0 = [1, 0] := rfl
  have hmean : np_mean [(1:ℝ), 0] = 1/2 := by
    rw [np_mean]; norm_num
  have hstd : np_std [(1:ℝ), 0] = 1/2 := by
    rw [np_std, hmean]
    rw [show ((([(1:ℝ), 0]).map (fun v => (v - 1/2) ^ 2)).sum) / (([(1:ℝ), 0]).length : ℝ)
        = (1/2)^2 by norm_num]
    exact Real.sqrt_sq (by norm_num)
  have hwin : (([(1:ℝ)].drop 0).take
      ((compute_ranges [[(1:ℝ)], [0]] [0, 0] 1 (1/2)).length)).getD 0 0 = 1 := by
    rw [hrlen]
    rfl
  have hwlen : (([(1:ℝ)].drop 0).take
      ((compute_ranges [[(1:ℝ)], [0]] [0, 0] 1 (1/2)).length)).length = 1 := by
    rw [hrlen]
    rfl
  have hb := (hp.2 0 (by rw [hwlen]; norm_num))
  rw [hwin, compute_ranges_getD _ _ _ _ 0 (by norm_num), hv, hmean, hstd] at hb
  norm_num at hb

/-- Claim C7 (amended).  Self-consistency does hold whenever the sigma
multiplier is at least the square root of the number of sequences (no
sample value deviates from the positional mean by more than `sqrt n`
population standard deviations): scanning sequence `i`'s profile with the
MotifRange built from the converged locations then reports an occurrence
at `i`'s own converged offset. -/
theorem C7_self_match_amended (shape_data : List (List ℝ)) (locs : List ℕ)
    (w : ℕ) (k : ℝ) (i : ℕ) (hi : i < shape_data.length)
    (hk : Real.sqrt (shape_data.length : ℝ) ≤ k)
    (hw : locs.getD i 0 + w ≤ (shape_data.getD i []).length) :
    locs.getD i 0 ∈ list_motif_occurrences (shape_data.getD i [])
        (compute_ranges shape_data locs w k) := by
  have hrlen : (compute_ranges shape_data locs w k).length = w := by
    simp [compute_ranges]
  have hwlen : ((((shape_data.getD i []).drop (locs.getD i 0)).take
      ((compute_ranges shape_data locs w k).length)).length) = w := by
    rw [hrlen, List.length_take, List.length_drop]
    omega
  apply List.mem_filter.mpr
  refine ⟨List.mem_range.mpr (by omega), ?_⟩
  rw [does_motif_match_window_iff _ _ 0 (0, 0)]
  refine ⟨by rw [hwlen, hrlen], ?_⟩
  intro idx hidx
  rw [hwlen] at hidx
  have hwin : (((shape_data.getD i []).drop (locs.getD i 0)).take
        ((compute_ranges shape_data locs w k).length)).getD idx 0
      = (shape_data.getD i []).getD (locs.getD i 0 + idx) 0 := by
    rw [List.getD_eq_getElem _ 0 (by rw [hwlen]; exact hidx)]
    rw [List.getElem_take, List.getElem_drop]
    exact (List.getD_eq_getElem _ 0 (by omega)).symm
  rw [hwin, compute_ranges_getD _ _ _ _ idx hidx]
  set vals := positional_vals shape_data locs idx with hvals
  have hvlen : vals.length = shape_data.length := positional_vals_length _ _ _
  have hmemv : (shape_data.getD i []).getD (locs.getD i 0 + idx) 0 ∈ vals := by
    rw [hvals, positional_vals]
    apply List.mem_map.mpr
    exact ⟨i, List.mem_range.mpr hi, rfl⟩
  have hdev := member_dev_le_sqrt_card_mul_std vals _ hmemv
  rw [hvlen] at hdev
  have hstd : 0 ≤ np_std vals := Real.sqrt_nonneg _
  have hks : Real.sqrt (shape_data.length : ℝ) * np_std vals ≤ k * np_std vals :=
    mul_le_mul_of_nonneg_right hk hstd
  have habs := abs_le.mp (le_trans hdev hks)
  constructor
  · simp only
    linarith [habs.1]
  · simp only
    linarith [habs.2]

/-- Claim C7 (witness): one sequence, multiplier 1 ≥ sqrt 1; the converged
offset 0 is reported. -/
theorem C7_self_match_amended_witness :
    Real.sqrt (([[(0:ℝ)]] : List (List ℝ)).length : ℝ) ≤ 1 ∧
    (0:ℕ) ∈ list_motif_occurrences ([(0:ℝ)])
        (compute_ranges [[(0:ℝ)]] [0] 1 1) := by
  have hk : Real.sqrt (([[(0:ℝ)]] : List (List ℝ)).length : ℝ) ≤ 1 := by
    rw [show (([[(0:ℝ)]] : List (List ℝ)).length : ℝ) = 1 by norm_num, Real.sqrt_one]
  exact ⟨hk, C7_self_match_amended [[(0:ℝ)]] [0] 1 1 0 (by norm_num) hk (by norm_num)⟩

/-- Claim C8.  Whenever some sequence's derived search bounds are
degenerate (`start > end`), the initial location draw signals an error
(Python's `random.randint` raises ValueError on an empty range) instead of
producing an invalid draw — for every sequence index with degenerate
bounds and every state of the pseudo-random stream. -/
theorem C8_degenerate_bounds_signaled (rand : ℕ → ℤ) (idx : ℕ)
    (start_locs end_locs : List ℤ) (i : ℕ)
    (hlen : start_locs.length = end_locs.length)
    (hi : i < start_locs.length)
    (hdeg : end_locs.getD i 0 < start_locs.getD i 0) :
    (draw_window_locs rand idx start_locs end_locs).toOption = none := by
  induction start_locs generalizing end_locs i idx with
  | nil => simp at hi
  | cons a as ih =>
      cases end_locs with
      | nil => simp at hlen
      | cons b bs =>
          rw [draw_window_locs]
          cases i with
          | zero =>
              simp only [List.getD_cons_zero] at hdeg
              rw [randint, if_neg (by omega)]
              rfl
          | succ i =>
              simp only [List.getD_cons_succ] at hdeg
              rcases hr : randint (rand idx) a b with e | v
              · rfl
              · have hrest := ih (idx + 1) bs i (by simpa using hlen)
                  (by simpa using hi) hdeg
                rcases hd : draw_window_locs rand (idx + 1) as bs with e2 | vs
                · rfl
                · rw [hd] at hrest
                  simp [Except.toOption] at hrest

/-- Claim C8 (witness): bounds `[1]`, `[0]` are degenerate at sequence 0,
and the draw signals an error for the all-zero random stream. -/
theorem C8_degenerate_bounds_signaled_witness :
    (draw_window_locs (fun _ => 0) 0 [1] [0]).toOption = none :=
  C8_degenerate_bounds_signaled (fun _ => 0) 0 [1] [0] 0 rfl (by norm_num) (by norm_num)

/-- Claim C9.  `compute_ranges` returns exactly `w` intervals in position
order; the interval at position `p` is `(mu - k*sigma, mu + k*sigma)`
where `mu` is the mean and `sigma` the (nonnegative) population standard
deviation — `sigma^2` is the mean squared deviation — of the values
`profile[seq][location[seq] + p]` across all sequences; and for a
nonnegative multiplier (the spec's sigma multiplier is positive) every
interval satisfies `min ≤ max`, collapsing to a point when `sigma = 0`. -/
theorem C9_motif_range_model (shape_data : List (List ℝ)) (locs : List ℕ)
    (w : ℕ) (k : ℝ) :
    (compute_ranges shape_data locs w k).length = w
  ∧ (∀ p, p < w → ∃ μ σ : ℝ,
      μ = (positional_vals shape_data locs p).sum / (shape_data.length : ℝ)
    ∧ σ ^ 2 = ((positional_vals shape_data locs p).map (fun v => (v - μ) ^ 2)).sum
          / (shape_data.length : ℝ)
    ∧ 0 ≤ σ
    ∧ (compute_ranges shape_data locs w k).getD p (0, 0) = (μ - k * σ, μ + k * σ))
  ∧ (0 ≤ k → ∀ p, p < w →
      ((compute_ranges shape_data locs w k).getD p (0, 0)).1
        ≤ ((compute_ranges shape_data locs w k).getD p (0, 0)).2) := by
  have hget : ∀ p, p < w → (compute_ranges shape_data locs w k).getD p (0, 0)
      = (np_mean (positional_vals shape_data locs p)
           - k * np_std (positional_vals shape_data locs p),
         np_mean (positional_vals shape_data locs p)
           + k * np_std (positional_vals shape_data locs p)) := by
    intro p hp
    rw [compute_ranges, getD_map_range _ _ _ _ hp]
  refine ⟨by simp [compute_ranges], ?_, ?_⟩
  · intro p hp
    refine ⟨np_mean (positional_vals shape_data locs p),
            np_std (positional_vals shape_data locs p), ?_, ?_, Real.sqrt_nonneg _,
            hget p hp⟩
    · rw [np_mean, positional_vals_length]
    · rw [np_std, Real.sq_sqrt, np_mean, positional_vals_length]
      apply div_nonneg _ (Nat.cast_nonneg _)
      apply List.sum_nonneg
      intro x hx
      rcases List.mem_map.mp hx with ⟨v, _, rfl⟩
      exact sq_nonneg _
  · intro hk p hp
    rw [hget p hp]
    have hks : 0 ≤ k * np_std (positional_vals shape_data locs p) :=
      mul_nonneg hk (Real.sqrt_nonneg _)
    simp only
    linarith

/-- Claim C9 (witness): the `min ≤ max` guarantee instantiated at a
one-sequence, one-position instance with multiplier 1. -/
theorem C9_motif_range_model_witness :
    (0:ℝ) ≤ 1 ∧
    ((compute_ranges [[(1:ℝ)]] [0] 1 1).getD 0 (0, 0)).1
      ≤ ((compute_ranges [[(1:ℝ)]] [0] 1 1).getD 0 (0, 0)).2 :=
  ⟨by norm_num, (C9_motif_range_model [[(1:ℝ)]] [0] 1 1).2.2 (by norm_num) 0 (by norm_num)⟩

/-- Claim C10.  For every profile set and motif range, `count_occurrences`
returns: a dictionary with exactly one entry per sequence id `0..n-1`, in
order, holding that sequence's occurrence list (possibly empty); every
occurrence list is strictly increasing with each offset keeping the window
inside its profile (`o + rangeLen ≤ profileLen`); and a count equal to the
number of entries whose occurrence list is nonempty. -/
theorem C10_count_occurrences_shape {α : Type} [LinearOrder α]
    (motif_as_range : List (α × α)) (shape_data : List (List α)) :
    (count_occurrences motif_as_range shape_data).2
        = (List.range shape_data.length).map
            (fun i => (i, list_motif_occurrences (shape_data.getD i []) motif_as_range))
  ∧ (∀ e ∈ (count_occurrences motif_as_range shape_data).2,
        List.Pairwise (· < ·) e.2
      ∧ ∀ o ∈ e.2, o + motif_as_range.length ≤ (shape_data.getD e.1 []).length)
  ∧ (count_occurrences motif_as_range shape_data).1
        = ((count_occurrences motif_as_range shape_data).2.filter
            (fun e => decide (e.2 ≠ []))).length := by
  have hfold := count_occurrences_foldl motif_as_range shape_data
    (List.range shape_data.length) 0 []
  have h2 : (count_occurrences motif_as_range shape_data).2
      = (List.range shape_data.length).map
          (fun i => (i, list_motif_occurrences (shape_data.getD i []) motif_as_range)) := by
    rw [count_occurrences, hfold]
    simp
  refine ⟨h2, ?_, ?_⟩
  · intro e he
    rw [h2] at he
    rcases List.mem_map.mp he with ⟨i, _, rfl⟩
    exact ⟨list_motif_occurrences_pairwise _ _,
           fun o ho => list_motif_occurrences_bound _ _ o ho⟩
  · rw [h2, count_occurrences, hfold]
    simp only [List.filter_map, List.length_map, zero_add]
    congr 1

/-- Claim C10 (witness): the dictionary layout instantiated at a concrete
two-sequence instance (sequence 0 matches, sequence 1 does not). -/
theorem C10_count_occurrences_shape_witness :
    (count_occurrences [((0:ℚ), 1)] [[0], [2]]).2
      = (List.range 2).map
          (fun i => (i, list_motif_occurrences (([[(0:ℚ)], [2]]).getD i []) [((0:ℚ), 1)])) := by
  have h := (C10_count_occurrences_shape [((0:ℚ), 1)] [[(0:ℚ)], [2]]).1
  simpa using h
